import Mathlib

/-!
Shallow embedding of the WAM-style abstract-machine core of
`src/src/lib.rs` (heap cells, store addresses, registers, `deref`,
`bind`, the PDL-driven unification loop, and the put/set/get/unify
instruction family).  Every definition is translated directly from the
Rust source; Rust panics (`unwrap`, out-of-bounds indexing, `panic!`)
are modelled as `none`, and the two source loops (`Env::deref`,
`Env::unify`) are modelled with explicit fuel.  The fuel given to
`deref` (`heap.length + 1`) covers every terminating walk, since a
terminating walk never revisits a heap address, so for `deref` a `none`
corresponds to a run on which the Rust code panics or never returns.
The unification loop admits no such bound computed from the state alone
(shared subterms can make it iterate exponentially often in the heap
size), so `unifyLoop` takes its iteration budget as an argument: the
fixed-budget wrapper `unify` is used only on concrete programs whose
loop runs it demonstrably covers, and universal statements about
instruction sequences use the budget-quantified `runN`, under which
every terminating execution of the source is an instance for every
sufficiently large budget.
-/

namespace Wam

/-- Functor name/arity pair, from `pub struct Functor(FunctorName, FunctorArity)`. -/
structure Functor where
  name : String
  arity : Nat
deriving DecidableEq

/-- Heap cells, from `enum Cell { Str(HeapAddress), Ref(HeapAddress), Func(Functor) }`. -/
inductive Cell where
  | Str : Nat → Cell
  | Ref : Nat → Cell
  | Func : Functor → Cell
deriving DecidableEq

/-- Store addresses, from `enum Store { HeapAddr(HeapAddress), XAddr(Register) }`. -/
inductive Store where
  | HeapAddr : Nat → Store
  | XAddr : Nat → Store
deriving DecidableEq

/-- Read/Write mode, from `enum Mode { Read, Write }`. -/
inductive Mode where
  | Read
  | Write
deriving DecidableEq

/-- Register file, from `struct Registers`.  The sparse `HashMap<Register, Cell>`
is modelled as a partial map `Nat → Option Cell`. -/
structure Registers where
  h : Nat
  x : Nat → Option Cell
  s : Nat
  p : Nat
  cp : Nat

/-- Machine state, from `struct Env`.  The heap is the growable cell vector;
the PDL is a LIFO list whose head is the top of the stack (Rust pushes and
pops at the end of its `Vec`). -/
structure Env where
  heap : List Cell
  pdl : List Store
  registers : Registers
  mode : Mode
  fail : Bool

/-- `Env::new()`: empty heap, empty PDL, zeroed registers, Read mode, Fail clear. -/
def initEnv : Env :=
  { heap := []
    pdl := []
    registers := { h := 0, x := fun _ => none, s := 0, p := 0, cp := 0 }
    mode := Mode.Read
    fail := false }

/-- `Cell::is_ref`. -/
def Cell.isRef : Cell → Bool
  | Cell.Ref _ => true
  | _ => false

/-- `Cell::is_str`. -/
def Cell.isStr : Cell → Bool
  | Cell.Str _ => true
  | _ => false

/-- `Cell::is_func`. -/
def Cell.isFunc : Cell → Bool
  | Cell.Func _ => true
  | _ => false

/-- `Cell::address`: the embedded heap address of a `Str` or `Ref` cell. -/
def Cell.address : Cell → Option Nat
  | Cell.Str a => some a
  | Cell.Ref a => some a
  | Cell.Func _ => none

/-- `Store::address`. -/
def Store.address : Store → Nat
  | Store.HeapAddr a => a
  | Store.XAddr a => a

/-- `Env::push_heap`: append a cell to the heap vector. -/
def pushHeap (env : Env) (c : Cell) : Env :=
  { env with heap := env.heap ++ [c] }

/-- `Env::insert_x`: write a register. -/
def insertX (env : Env) (i : Nat) (c : Cell) : Env :=
  { env with registers :=
      { env.registers with x := fun j => if j = i then some c else env.registers.x j } }

/-- `Env::set_s`. -/
def setS (env : Env) (v : Nat) : Env :=
  { env with registers := { env.registers with s := v } }

/-- `Env::inc_s`. -/
def incS (env : Env) (v : Nat) : Env :=
  { env with registers := { env.registers with s := env.registers.s + v } }

/-- `Env::inc_heap_counter`. -/
def incH (env : Env) (v : Nat) : Env :=
  { env with registers := { env.registers with h := env.registers.h + v } }

/-- `Env::set_fail`. -/
def setFail (env : Env) (b : Bool) : Env :=
  { env with fail := b }

/-- `Env::set_mode`. -/
def setMode (env : Env) (m : Mode) : Env :=
  { env with mode := m }

/-- `Env::push_pdl`: the list head is the top of the push-down list. -/
def pushPdl (env : Env) (a : Store) : Env :=
  { env with pdl := a :: env.pdl }

/-- `Env::get_store_cell`: read the cell a store address names (register
misses are the Rust `unwrap` panic). -/
def getStoreCell (env : Env) : Store → Option Cell
  | Store.HeapAddr a => env.heap[a]?
  | Store.XAddr i => env.registers.x i

/-- The heap-walking part of the loop in `Env::deref`: follow `Ref` cells
until a self-referential `Ref` or a non-`Ref` cell, returning the final
address.  Fuelled; out-of-bounds heap access (a Rust index panic) is `none`. -/
def derefH (env : Env) : Nat → Nat → Option Store
  | 0, _ => none
  | fuel + 1, a =>
    match env.heap[a]? with
    | none => none
    | some (Cell.Ref v) =>
      if v ≠ a then derefH env fuel v else some (Store.HeapAddr a)
    | some _ => some (Store.HeapAddr a)

/-- `Env::deref`.  An `XAddr i` inspects register `i`; a `Ref v` cell there
continues the walk on the heap at `v` unless `v = i` (the Rust code compares
the `Ref` target against the register index), in which case `XAddr i` itself
is returned.  A missing register is the Rust `expect` panic. -/
def deref (env : Env) : Store → Option Store
  | Store.HeapAddr a => derefH env (env.heap.length + 1) a
  | Store.XAddr i =>
    match env.registers.x i with
    | none => none
    | some (Cell.Ref v) =>
      if v ≠ i then derefH env (env.heap.length + 1) v else some (Store.XAddr i)
    | some _ => some (Store.XAddr i)

/-- `Env::bind`: read the two cells, unwrap their embedded addresses (a
`Func` cell makes the `unwrap` panic), then overwrite the heap slot chosen
by `c1.is_ref() && (!c2.is_ref() || a2 < a1)` with a copy of the other cell.
A write outside the heap is the Rust index-assignment panic. -/
def bind (env : Env) (s1 s2 : Store) : Option Env :=
  match getStoreCell env s1, getStoreCell env s2 with
  | some c1, some c2 =>
    match c1.address, c2.address with
    | some v1, some v2 =>
      if c1.isRef && (!c2.isRef || v2 < v1) then
        if v1 < env.heap.length then some { env with heap := env.heap.set v1 c2 } else none
      else
        if v2 < env.heap.length then some { env with heap := env.heap.set v2 c1 } else none
    | _, _ => none
  | _, _ => none

/-- `Env::get_functor`: a functor from a `Str` (through the heap) or `Func`
cell; a `Ref` cell or a `Str` pointing at a non-`Func` cell is a panic. -/
def getFunctor (env : Env) : Cell → Option Functor
  | Cell.Str a =>
    match env.heap[a]? with
    | some (Cell.Func f) => some f
    | _ => none
  | Cell.Func f => some f
  | Cell.Ref _ => none

/-- The argument-pushing loop of `Env::unify`: `for i in 1..n1` pushes the
pairs `HeapAddr (v1+i)`, `HeapAddr (v2+i)` — the Rust range is exclusive,
so positions `1 .. n-1` only. -/
def pushArgPairs (env : Env) (v1 v2 n : Nat) : Env :=
  (List.range' 1 (n - 1)).foldl
    (fun e i => pushPdl (pushPdl e (Store.HeapAddr (v1 + i))) (Store.HeapAddr (v2 + i))) env

/-- The `while !(empty_pdl || fail)` loop of `Env::unify`, fuelled.  Each
iteration pops two addresses, derefs them, and either skips (equal), binds
(a `Ref` present), pushes argument pairs (equal functors) or sets Fail.
Popping from a one-element PDL is the second `unwrap` panic. -/
def unifyLoop : Nat → Env → Option Env
  | fuel, env =>
    if env.pdl.isEmpty || env.fail then some env
    else
      match fuel, env.pdl with
      | _, [] => some env
      | _, [_] => none
      | 0, _ :: _ :: _ => none
      | fuel' + 1, a1 :: a2 :: rest =>
        match deref { env with pdl := rest } a1, deref { env with pdl := rest } a2 with
        | some d1, some d2 =>
          if d1 = d2 then unifyLoop fuel' { env with pdl := rest }
          else
            match getStoreCell { env with pdl := rest } d1,
                getStoreCell { env with pdl := rest } d2 with
            | some c1, some c2 =>
              if c1.isRef || c2.isRef then
                match bind { env with pdl := rest } d1 d2 with
                | some env2 => unifyLoop fuel' env2
                | none => none
              else
                match c1.address, c2.address with
                | some v1, some v2 =>
                  match getFunctor { env with pdl := rest } c1,
                      getFunctor { env with pdl := rest } c2 with
                  | some f1, some f2 =>
                    if f1 = f2 then
                      unifyLoop fuel' (pushArgPairs { env with pdl := rest } v1 v2 f1.arity)
                    else unifyLoop fuel' (setFail { env with pdl := rest } true)
                  | _, _ => none
                | _, _ => none
            | _, _ => none
        | _, _ => none

/-- `Env::unify`: push the two addresses, clear Fail, run the loop with a
fixed iteration budget.  The budget covers the concrete loop runs this
development evaluates (each needs at most two iterations), but on other
inputs `none` may also mean the budget ran out — terminating source runs
can exceed any budget computed from the state — so statements quantified
over arbitrary executions use `unifyN`/`runN` instead. -/
def unify (env : Env) (a1 a2 : Store) : Option Env :=
  unifyLoop
    ((setFail (pushPdl (pushPdl env a1) a2) false).heap.length +
      (setFail (pushPdl (pushPdl env a1) a2) false).pdl.length + 4)
    (setFail (pushPdl (pushPdl env a1) a2) false)

/-- `Env::put_structure`: push `Str(H+1)` and `Func(f)`, copy the cell at
index `H` into `Xi`, advance `H` by 2. -/
def put_structure (f : Functor) (xi : Nat) (env : Env) : Option Env :=
  match (pushHeap (pushHeap env (Cell.Str (env.registers.h + 1)))
      (Cell.Func f)).heap[env.registers.h]? with
  | none => none
  | some c =>
    some (incH (insertX (pushHeap (pushHeap env (Cell.Str (env.registers.h + 1)))
      (Cell.Func f)) xi c) 2)

/-- `Env::set_variable`: push `Ref(H)`, copy the cell at index `H` into `Xi`,
advance `H` by 1. -/
def set_variable (xi : Nat) (env : Env) : Option Env :=
  match (pushHeap env (Cell.Ref env.registers.h)).heap[env.registers.h]? with
  | none => none
  | some c => some (incH (insertX (pushHeap env (Cell.Ref env.registers.h)) xi c) 1)

/-- `Env::set_value`: push a copy of `Xi`'s cell, advance `H` by 1. -/
def set_value (xi : Nat) (env : Env) : Option Env :=
  match env.registers.x xi with
  | none => none
  | some c => some (incH (pushHeap env c) 1)

/-- The body of `Env::get_structure` after the dereferenced cell and its
numeric address have been extracted. -/
def get_structure_cell (f : Functor) (env : Env) (cell : Cell) (address : Nat) : Option Env :=
  match cell with
  | Cell.Ref _ =>
    match bind (pushHeap (pushHeap env (Cell.Str (env.registers.h + 1))) (Cell.Func f))
        (Store.HeapAddr address) (Store.HeapAddr env.registers.h) with
    | none => none
    | some env2 => some (setMode (incH env2 2) Mode.Write)
  | Cell.Str a =>
    match env.heap[a]? with
    | some (Cell.Func g) =>
      if g = f then some (setMode (setS env (a + 1)) Mode.Read)
      else some (setFail env true)
    | some _ => none
    | none => none
  | Cell.Func _ => some (setFail env true)

/-- `Env::get_structure`: deref `Xi`; a heap result reads the heap cell, a
register result re-reads register `Xi` and keeps the register index as the
numeric address. -/
def get_structure (f : Functor) (xi : Nat) (env : Env) : Option Env :=
  match deref env (Store.XAddr xi) with
  | none => none
  | some (Store.HeapAddr a) =>
    match env.heap[a]? with
    | none => none
    | some cell => get_structure_cell f env cell a
  | some (Store.XAddr a) =>
    match env.registers.x xi with
    | none => none
    | some cell => get_structure_cell f env cell a

/-- `Env::unify_variable`: Read mode copies `heap[S]` into `Xi`; Write mode
pushes `Ref(H)`, copies it into `Xi` and advances `H`; both advance `S`. -/
def unify_variable (xi : Nat) (env : Env) : Option Env :=
  match env.mode with
  | Mode.Read =>
    match env.heap[env.registers.s]? with
    | none => none
    | some c => some (incS (insertX env xi c) 1)
  | Mode.Write =>
    match (pushHeap env (Cell.Ref env.registers.h)).heap[env.registers.h]? with
    | none => none
    | some c =>
      some (incS (incH (insertX (pushHeap env (Cell.Ref env.registers.h)) xi c) 1) 1)

/-- `Env::unify_value`: Read mode unifies `Xi` with `HeapAddr(S)`; Write
mode pushes a copy of `Xi` and advances `H`; both advance `S`. -/
def unify_value (xi : Nat) (env : Env) : Option Env :=
  match env.mode with
  | Mode.Read =>
    match unify env (Store.XAddr xi) (Store.HeapAddr env.registers.s) with
    | none => none
    | some env1 => some (incS env1 1)
  | Mode.Write =>
    match env.registers.x xi with
    | none => none
    | some c => some (incS (incH (pushHeap env c) 1) 1)

/-- The instruction alphabet exercised by the repository's tests. -/
inductive Instr where
  | putStructure : Functor → Nat → Instr
  | setVariable : Nat → Instr
  | setValue : Nat → Instr
  | getStructure : Functor → Nat → Instr
  | unifyVariable : Nat → Instr
  | unifyValue : Nat → Instr

/-- Dispatch one instruction. -/
def execInstr (env : Env) : Instr → Option Env
  | Instr.putStructure f xi => put_structure f xi env
  | Instr.setVariable xi => set_variable xi env
  | Instr.setValue xi => set_value xi env
  | Instr.getStructure f xi => get_structure f xi env
  | Instr.unifyVariable xi => unify_variable xi env
  | Instr.unifyValue xi => unify_value xi env

/-- Run an instruction sequence, stopping at the first panic. -/
def run (env : Env) : List Instr → Option Env
  | [] => some env
  | i :: is =>
    match execInstr env i with
    | none => none
    | some env' => run env' is

/-- `Env::unify` with an explicit iteration budget for its loop: the Rust
`while` has no bound, so statements about arbitrary executions quantify
over this budget. -/
def unifyN (fuel : Nat) (env : Env) (a1 a2 : Store) : Option Env :=
  unifyLoop fuel (setFail (pushPdl (pushPdl env a1) a2) false)

/-- `Env::unify_value` with an explicit iteration budget for the internal
unification loop (identical to `unify_value` otherwise). -/
def unify_valueN (fuel : Nat) (xi : Nat) (env : Env) : Option Env :=
  match env.mode with
  | Mode.Read =>
    match unifyN fuel env (Store.XAddr xi) (Store.HeapAddr env.registers.s) with
    | none => none
    | some env1 => some (incS env1 1)
  | Mode.Write =>
    match env.registers.x xi with
    | none => none
    | some c => some (incS (incH (pushHeap env c) 1) 1)

/-- Instruction dispatch with an explicit iteration budget for the
unification loop; only `unify_value` consults it. -/
def execInstrN (fuel : Nat) (env : Env) : Instr → Option Env
  | Instr.unifyValue xi => unify_valueN fuel xi env
  | i => execInstr env i

/-- Run an instruction sequence, giving every unification loop the same
explicit iteration budget.  Any terminating execution of the Rust source
is `runN fuel` for every `fuel` at least the largest iteration count among
its finitely many `unify` calls, so a property proved for all budgets
covers all terminating source runs. -/
def runN (fuel : Nat) (env : Env) : List Instr → Option Env
  | [] => some env
  | i :: is =>
    match execInstrN fuel env i with
    | none => none
    | some env' => runN fuel env' is

/-- The S5 instruction sequence compiling `p(Z, h(Z, W), f(W))`
(`tests::test_exercise_2_1`, with the registers named as in the spec). -/
def progS5 : List Instr :=
  [ Instr.putStructure ⟨"h", 2⟩ 3
  , Instr.setVariable 2
  , Instr.setVariable 5
  , Instr.putStructure ⟨"f", 1⟩ 4
  , Instr.setValue 5
  , Instr.putStructure ⟨"p", 3⟩ 1
  , Instr.setValue 2
  , Instr.setValue 3
  , Instr.setValue 4 ]

/-- The S6 extension of S5 matching `p(f(X), h(Y, f(a)), Y)`
(`tests::test_exercise_2_3`). -/
def progS6 : List Instr :=
  progS5 ++
  [ Instr.getStructure ⟨"p", 3⟩ 1
  , Instr.unifyVariable 2
  , Instr.unifyVariable 3
  , Instr.unifyVariable 4
  , Instr.getStructure ⟨"f", 1⟩ 2
  , Instr.unifyVariable 5
  , Instr.getStructure ⟨"h", 2⟩ 3
  , Instr.unifyValue 4
  , Instr.unifyVariable 6
  , Instr.getStructure ⟨"f", 1⟩ 6
  , Instr.unifyVariable 7
  , Instr.getStructure ⟨"a", 0⟩ 7 ]

/-- Association-list register file: `xmap ps` is definitionally the map the
`insert_x` closures build, newest entry first. -/
def xmap : List (Nat × Cell) → Nat → Option Cell
  | [], _ => none
  | p :: rest, j => if j = p.1 then some p.2 else xmap rest j

/-- The first 16 instructions of the S6 program, up to and including
`get_structure h/2 X3`. -/
def progS6seg1 : List Instr :=
  progS5 ++
  [ Instr.getStructure ⟨"p", 3⟩ 1
  , Instr.unifyVariable 2
  , Instr.unifyVariable 3
  , Instr.unifyVariable 4
  , Instr.getStructure ⟨"f", 1⟩ 2
  , Instr.unifyVariable 5
  , Instr.getStructure ⟨"h", 2⟩ 3 ]

/-- The last four instructions of the S6 program. -/
def progS6seg3 : List Instr :=
  [ Instr.unifyVariable 6
  , Instr.getStructure ⟨"f", 1⟩ 6
  , Instr.unifyVariable 7
  , Instr.getStructure ⟨"a", 0⟩ 7 ]

/-- Machine state reached after `progS6seg1`. -/
def envS6mid : Env :=
  { heap := [ Cell.Str 1, Cell.Func ⟨"h", 2⟩, Cell.Str 13, Cell.Ref 3
            , Cell.Str 5, Cell.Func ⟨"f", 1⟩, Cell.Ref 3
            , Cell.Str 8, Cell.Func ⟨"p", 3⟩, Cell.Ref 2, Cell.Str 1, Cell.Str 5
            , Cell.Str 13, Cell.Func ⟨"f", 1⟩, Cell.Ref 14 ]
    pdl := []
    registers :=
      { h := 15
        x := xmap [ (5, Cell.Ref 14), (4, Cell.Str 5), (3, Cell.Str 1), (2, Cell.Ref 2)
                  , (1, Cell.Str 8), (4, Cell.Str 5), (5, Cell.Ref 3), (2, Cell.Ref 2)
                  , (3, Cell.Str 1) ]
        s := 2
        p := 0
        cp := 0 }
    mode := Mode.Read
    fail := false }

/-- Machine state reached after `progS6seg1 ++ [unify_value X4]`: the
Read-mode unification succeeds without binding anything, only `S` moves. -/
def envS6mid2 : Env :=
  { envS6mid with registers := { envS6mid.registers with s := 3 } }

/-- Final machine state of the S6 program. -/
def envS6fin : Env :=
  { heap := [ Cell.Str 1, Cell.Func ⟨"h", 2⟩, Cell.Str 13, Cell.Str 16
            , Cell.Str 5, Cell.Func ⟨"f", 1⟩, Cell.Ref 3
            , Cell.Str 8, Cell.Func ⟨"p", 3⟩, Cell.Ref 2, Cell.Str 1, Cell.Str 5
            , Cell.Str 13, Cell.Func ⟨"f", 1⟩, Cell.Ref 14
            , Cell.Str 16, Cell.Func ⟨"f", 1⟩, Cell.Str 19
            , Cell.Str 19, Cell.Func ⟨"a", 0⟩ ]
    pdl := []
    registers :=
      { h := 20
        x := xmap [ (7, Cell.Ref 17), (6, Cell.Ref 3)
                  , (5, Cell.Ref 14), (4, Cell.Str 5), (3, Cell.Str 1), (2, Cell.Ref 2)
                  , (1, Cell.Str 8), (4, Cell.Str 5), (5, Cell.Ref 3), (2, Cell.Ref 2)
                  , (3, Cell.Str 1) ]
        s := 5
        p := 0
        cp := 0 }
    mode := Mode.Write
    fail := false }

/-- A heap holding the two structures `f(X, Y)` at address 0 and `f(Z, W)`
at address 4, all four arguments unbound. -/
def envTwoPairs : Env :=
  { heap := [ Cell.Str 1, Cell.Func ⟨"f", 2⟩, Cell.Ref 2, Cell.Ref 3
            , Cell.Str 5, Cell.Func ⟨"f", 2⟩, Cell.Ref 6, Cell.Ref 7 ]
    pdl := []
    registers := { h := 8, x := fun _ => none, s := 0, p := 0, cp := 0 }
    mode := Mode.Read
    fail := false }

/-- A heap holding `k(V1, c, V2)` at address 0 and `k(W1, d, W2)` at
address 5: unifying them mismatches on the second argument while the
first-argument pair is still on the PDL. -/
def envStalePdl : Env :=
  { heap := [ Cell.Str 1, Cell.Func ⟨"k", 3⟩, Cell.Ref 2, Cell.Str 10, Cell.Ref 4
            , Cell.Str 6, Cell.Func ⟨"k", 3⟩, Cell.Ref 7, Cell.Str 11, Cell.Ref 9
            , Cell.Func ⟨"c", 0⟩, Cell.Func ⟨"d", 0⟩ ]
    pdl := []
    registers := { h := 12, x := fun _ => none, s := 0, p := 0, cp := 0 }
    mode := Mode.Read
    fail := false }

/-- An instruction sequence on which `get_structure` records a failure and a
later Read-mode `unify_value` silently clears it: build `c`, match it
against `d` (mismatch, Fail set), then unify `X1` with heap slot 0. -/
def progFailReset : List Instr :=
  [ Instr.putStructure ⟨"c", 0⟩ 1
  , Instr.getStructure ⟨"d", 0⟩ 1 ]

/-- Heap cell `a` is allowed by the lower-address binding discipline:
if it is a `Ref` its target does not exceed `a`. -/
def refOk (a : Nat) : Option Cell → Prop
  | some (Cell.Ref v) => v ≤ a
  | _ => True

instance (a : Nat) (oc : Option Cell) : Decidable (refOk a oc) :=
  match oc with
  | some (Cell.Ref v) => inferInstanceAs (Decidable (v ≤ a))
  | some (Cell.Str _) => Decidable.isTrue trivial
  | some (Cell.Func _) => Decidable.isTrue trivial
  | none => Decidable.isTrue trivial

/-- Every `Ref` chain on the heap is non-increasing in address (the
invariant the lower-address binding rule maintains). -/
def WFrefs (heap : List Cell) : Prop :=
  ∀ a, a < heap.length → refOk a heap[a]?

instance (heap : List Cell) : Decidable (WFrefs heap) :=
  inferInstanceAs (Decidable (∀ a, a < heap.length → refOk a heap[a]?))

/-- Heap cell `a` is allowed by the structure layout: if it is a `Str` its
target holds a `Func` cell. -/
def strOk (heap : List Cell) : Option Cell → Prop
  | some (Cell.Str sa) =>
    match heap[sa]? with
    | some (Cell.Func _) => True
    | _ => False
  | _ => True

instance (heap : List Cell) (oc : Option Cell) : Decidable (strOk heap oc) :=
  match oc with
  | some (Cell.Str sa) =>
    match h : heap[sa]? with
    | some (Cell.Func _) => Decidable.isTrue (by simp [strOk, h])
    | some (Cell.Str _) => Decidable.isFalse (by simp [strOk, h])
    | some (Cell.Ref _) => Decidable.isFalse (by simp [strOk, h])
    | none => Decidable.isFalse (by simp [strOk, h])
  | some (Cell.Ref _) => Decidable.isTrue trivial
  | some (Cell.Func _) => Decidable.isTrue trivial
  | none => Decidable.isTrue trivial

/-- Every `Str` cell on the heap points at a `Func` cell. -/
def WFstr (heap : List Cell) : Prop :=
  ∀ a, a < heap.length → strOk heap heap[a]?

instance (heap : List Cell) : Decidable (WFstr heap) :=
  inferInstanceAs (Decidable (∀ a, a < heap.length → strOk heap heap[a]?))

/-- A register file whose only entry, `X2`, holds `Ref 2`: the `Ref` target
collides with the register index, so `deref` stops in the register file
even though heap address 2 starts a chain ending at address 0. -/
def envDerefQuirk : Env :=
  { heap := [Cell.Ref 0, Cell.Ref 0, Cell.Ref 1]
    pdl := []
    registers := { h := 3, x := xmap [(2, Cell.Ref 2)], s := 0, p := 0, cp := 0 }
    mode := Mode.Read
    fail := false }

/-- Register `X0` holds `Ref 1` with `1 ≠ 0`, so the walk continues on the
heap. -/
def envDerefW : Env :=
  { heap := [Cell.Func ⟨"z", 0⟩, Cell.Ref 1]
    pdl := []
    registers := { h := 2, x := xmap [(0, Cell.Ref 1)], s := 0, p := 0, cp := 0 }
    mode := Mode.Read
    fail := false }

/-- Two self-referential (unbound) `Ref` cells. -/
def envBindW : Env :=
  { heap := [Cell.Ref 0, Cell.Ref 1]
    pdl := []
    registers := { h := 2, x := fun _ => none, s := 0, p := 0, cp := 0 }
    mode := Mode.Read
    fail := false }

/-- An unbound `Ref` next to a bare `Func` cell. -/
def envBindFunc : Env :=
  { heap := [Cell.Ref 0, Cell.Func ⟨"k", 0⟩]
    pdl := []
    registers := { h := 2, x := fun _ => none, s := 0, p := 0, cp := 0 }
    mode := Mode.Read
    fail := false }

/-- Register `X1` holds `Str 0` but heap cell 0 is a `Ref`, not a `Func`:
the state that makes `get_structure` panic instead of failing. -/
def envGsBad : Env :=
  { heap := [Cell.Ref 0]
    pdl := []
    registers := { h := 1, x := xmap [(1, Cell.Str 0)], s := 0, p := 0, cp := 0 }
    mode := Mode.Read
    fail := false }

/-- Register `X1` holds `Str 1` pointing at the functor cell of a `q/1`
structure. -/
def envGsW : Env :=
  { heap := [Cell.Str 1, Cell.Func ⟨"q", 1⟩, Cell.Ref 2]
    pdl := []
    registers := { h := 3, x := xmap [(1, Cell.Str 1)], s := 0, p := 0, cp := 0 }
    mode := Mode.Read
    fail := false }

/-- A well-formed heap (Ref chains non-increasing, Str targets are Func)
with register `X0 = Ref 1`. -/
def envWfHeap : Env :=
  { heap := [Cell.Ref 0, Cell.Ref 0, Cell.Str 3, Cell.Func ⟨"w", 0⟩]
    pdl := []
    registers := { h := 4, x := xmap [(0, Cell.Ref 1)], s := 0, p := 0, cp := 0 }
    mode := Mode.Read
    fail := false }

theorem run_append (l1 l2 : List Instr) (env : Env) :
    run env (l1 ++ l2) = Option.bind (run env l1) (fun e => run e l2) := by
  induction l1 generalizing env with
  | nil => rfl
  | cons i is ih =>
    show run env (i :: (is ++ l2)) = _
    cases h : execInstr env i with
    | none => simp [run, h]
    | some env' => simp [run, h, ih env']

theorem progS6_split :
    progS6 = progS6seg1 ++ ([Instr.unifyValue 4] ++ progS6seg3) := by
  rfl

theorem run_progS6seg1 : run initEnv progS6seg1 = some envS6mid := by
  rfl

theorem run_unifyValue4 : run envS6mid [Instr.unifyValue 4] = some envS6mid2 := by
  rfl

theorem run_progS6seg3 : run envS6mid2 progS6seg3 = some envS6fin := by
  rfl

theorem run_progS6 : run initEnv progS6 = some envS6fin := by
  rw [progS6_split, run_append, run_progS6seg1, Option.some_bind, run_append,
    run_unifyValue4, Option.some_bind, run_progS6seg3]

/-- C1: evaluating the address-based unification loop at two `f/2`
structures with equal functors: the loop pushes only the first
argument-address pair (`pushArgPairs` with arity 2 pushes exactly one pair,
offsets `v+1`), so the run binds the first arguments (`heap[6]` becomes
`Ref 2`) but never touches the second arguments (`heap[7]` stays the
unbound `Ref 7`) and still reports success — the `for i in 1..n` range is
exclusive, dropping the last argument position. -/
theorem unify_drops_last_arg_pair :
    (pushArgPairs envTwoPairs 1 5 2).pdl = [Store.HeapAddr 6, Store.HeapAddr 2] ∧
    unify envTwoPairs (Store.HeapAddr 0) (Store.HeapAddr 4) =
      some { envTwoPairs with
               heap := [ Cell.Str 1, Cell.Func ⟨"f", 2⟩, Cell.Ref 2, Cell.Ref 3
                       , Cell.Str 5, Cell.Func ⟨"f", 2⟩, Cell.Ref 2, Cell.Ref 7 ] } := by
  exact ⟨rfl, rfl⟩

/-- C2 (counterexample): after S5 followed by the S6 get/unify sequence,
register `X5` holds `Ref 14` and its `Ref` chain dereferences to heap
address 14, whose cell is the unbound self-referential `Ref 14` — not the
`a/0` structure (whose cells are `Str 19` at 18 and `Func a/0` at 19).
The claim that the chain from `X5` reaches the `a/0` structure is false. -/
theorem s6_x5_chain_unbound :
    (run initEnv progS6).bind (fun e => deref e (Store.XAddr 5)) = some (Store.HeapAddr 14) ∧
    (run initEnv progS6).bind (fun e => e.heap[14]?) = some (Cell.Ref 14) ∧
    (run initEnv progS6).bind (fun e => e.heap[18]?) = some (Cell.Str 19) ∧
    (run initEnv progS6).bind (fun e => e.heap[19]?) = some (Cell.Func ⟨"a", 0⟩) ∧
    Cell.Ref 14 ≠ Cell.Str 19 ∧ Cell.Ref 14 ≠ Cell.Func ⟨"a", 0⟩ := by
  rw [run_progS6]
  refine ⟨rfl, rfl, rfl, rfl, by decide, by decide⟩

/-- C2 (amended): the S5+S6 sequence leaves the Fail flag false and a heap
of exactly 20 cells with the functor `a/0` at address 19, but the `Ref`
chain from `X5` (which holds `Ref 14`) ends at the unbound
self-referential `Ref` at heap address 14 rather than at the `a/0`
structure — the unification loop's exclusive argument range never bound
`X5`'s cell (the repository's own test instead expects `Ref 3` there). -/
theorem s6_final_state :
    (run initEnv progS6).map Env.fail = some false ∧
    (run initEnv progS6).map (fun e => e.heap.length) = some 20 ∧
    (run initEnv progS6).bind (fun e => e.heap[19]?) = some (Cell.Func ⟨"a", 0⟩) ∧
    (run initEnv progS6).bind (fun e => e.registers.x 5) = some (Cell.Ref 14) ∧
    (run initEnv progS6).bind (fun e => deref e (Store.XAddr 5)) = some (Store.HeapAddr 14) ∧
    (run initEnv progS6).bind (fun e => e.heap[14]?) = some (Cell.Ref 14) := by
  rw [run_progS6]
  exact ⟨rfl, rfl, rfl, rfl, rfl, rfl⟩

/-- C6: the S5 sequence produces a heap of exactly 12 cells whose last five
cells are `Str 8, Func p/3, Ref 2, Str 1, Str 5`, with `X1 = Str 8`,
`X2 = Ref 2`, `X3 = Str 1`, `X4 = Str 5`, `X5 = Ref 3`. -/
theorem s5_final_state :
    (run initEnv progS5).map Env.heap =
      some [ Cell.Str 1, Cell.Func ⟨"h", 2⟩, Cell.Ref 2, Cell.Ref 3
           , Cell.Str 5, Cell.Func ⟨"f", 1⟩, Cell.Ref 3
           , Cell.Str 8, Cell.Func ⟨"p", 3⟩, Cell.Ref 2, Cell.Str 1, Cell.Str 5 ] ∧
    (run initEnv progS5).bind (fun e => e.registers.x 1) = some (Cell.Str 8) ∧
    (run initEnv progS5).bind (fun e => e.registers.x 2) = some (Cell.Ref 2) ∧
    (run initEnv progS5).bind (fun e => e.registers.x 3) = some (Cell.Str 1) ∧
    (run initEnv progS5).bind (fun e => e.registers.x 4) = some (Cell.Str 5) ∧
    (run initEnv progS5).bind (fun e => e.registers.x 5) = some (Cell.Ref 3) := by
  exact ⟨rfl, rfl, rfl, rfl, rfl, rfl⟩

/-- C9: `unify` clears the Fail flag on entry, so a failure recorded by an
earlier instruction can be erased: after `put_structure c/0 X1;
get_structure d/0 X1` the Fail flag is true (functor mismatch), yet
appending a Read-mode `unify_value X1` — whose internal `unify` succeeds —
leaves the machine with Fail false. -/
theorem unify_value_resets_recorded_failure :
    (run initEnv progFailReset).map Env.fail = some true ∧
    (run initEnv (progFailReset ++ [Instr.unifyValue 1])).map Env.fail = some false := by
  exact ⟨rfl, rfl⟩

/-- C10: when `unify` stops on a functor mismatch it does not drain the
PDL: unifying the two `k/3` structures of `envStalePdl` fails on the
second arguments while the first-argument pair `HeapAddr 2, HeapAddr 7`
is still on the PDL, and a subsequent `unify` call — given only the single
already-equal address pair `HeapAddr 4, HeapAddr 4` — pops the stale pair
too and binds it (`heap[7]` becomes `Ref 2`). -/
theorem unify_leaves_stale_pdl :
    (unify envStalePdl (Store.HeapAddr 0) (Store.HeapAddr 5)).map Env.fail = some true ∧
    (unify envStalePdl (Store.HeapAddr 0) (Store.HeapAddr 5)).map Env.pdl =
      some [Store.HeapAddr 2, Store.HeapAddr 7] ∧
    ((unify envStalePdl (Store.HeapAddr 0) (Store.HeapAddr 5)).bind
        (fun e => unify e (Store.HeapAddr 4) (Store.HeapAddr 4))).map Env.pdl = some [] ∧
    ((unify envStalePdl (Store.HeapAddr 0) (Store.HeapAddr 5)).bind
        (fun e => unify e (Store.HeapAddr 4) (Store.HeapAddr 4))).bind
      (fun e => e.heap[7]?) = some (Cell.Ref 2) ∧
    ((unify envStalePdl (Store.HeapAddr 0) (Store.HeapAddr 5)).bind
        (fun e => unify e (Store.HeapAddr 4) (Store.HeapAddr 4))).map Env.fail =
      some false := by
  exact ⟨rfl, rfl, rfl, rfl, rfl⟩

theorem derefH_isHeapAddr (env : Env) :
    ∀ fuel a r, derefH env fuel a = some r → ∃ b, r = Store.HeapAddr b := by
  intro fuel
  induction fuel with
  | zero => intro a r h; simp [derefH] at h
  | succ k ih =>
    intro a r h
    unfold derefH at h
    cases hc : env.heap[a]? with
    | none => rw [hc] at h; exact absurd h (by simp)
    | some c =>
      rw [hc] at h
      cases c with
      | Ref v =>
        by_cases hv : v = a
        · simp only [hv, ne_eq, not_true_eq_false, if_false] at h
          exact ⟨a, (Option.some_injective _ h).symm⟩
        · simp only [ne_eq, hv, not_false_eq_true, if_true] at h
          exact ih v r h
      | Str s' => exact ⟨a, (Option.some_injective _ h).symm⟩
      | Func g => exact ⟨a, (Option.some_injective _ h).symm⟩

theorem derefH_total (env : Env) (hwf : WFrefs env.heap) :
    ∀ fuel a, a < env.heap.length → a < fuel → ∃ r, derefH env fuel a = some r := by
  intro fuel
  induction fuel with
  | zero => intro a _ hf; omega
  | succ k ih =>
    intro a ha _
    have hget : env.heap[a]? = some env.heap[a] := List.getElem?_eq_getElem ha
    cases hc : env.heap[a] with
    | Ref v =>
      rw [hc] at hget
      by_cases hv : v = a
      · exact ⟨Store.HeapAddr a, by simp [derefH, hget, hv]⟩
      · have hva : v ≤ a := by
          have := hwf a ha
          rw [hget] at this
          exact this
        have hvlt : v < a := lt_of_le_of_ne hva hv
        obtain ⟨r, hr⟩ := ih v (lt_trans hvlt ha) (by omega)
        exact ⟨r, by simp [derefH, hget, hv, hr]⟩
    | Str s' =>
      rw [hc] at hget
      exact ⟨Store.HeapAddr a, by simp [derefH, hget]⟩
    | Func g =>
      rw [hc] at hget
      exact ⟨Store.HeapAddr a, by simp [derefH, hget]⟩

/-- C3 (counterexample): register `X2` of `envDerefQuirk` holds `Ref 2`,
yet `deref (XAddr 2)` does not continue the walk on the heap at address 2:
the heap walk from 2 ends at `HeapAddr 0`, while `deref (XAddr 2)` returns
`XAddr 2` itself (the code compares the `Ref` target with the register
index and treats the coincidence as an unbound cell). -/
theorem deref_xaddr_self_quirk :
    envDerefQuirk.registers.x 2 = some (Cell.Ref 2) ∧
    deref envDerefQuirk (Store.XAddr 2) = some (Store.XAddr 2) ∧
    deref envDerefQuirk (Store.HeapAddr 2) = some (Store.HeapAddr 0) ∧
    Store.XAddr 2 ≠ Store.HeapAddr 0 := by
  exact ⟨rfl, rfl, rfl, by decide⟩

/-- C3 (amended): for every register `i` holding `Ref v` with `v ≠ i`,
`deref (XAddr i)` continues the dereference walk on the heap at address
`v` — it equals `deref (HeapAddr v)` — and any address it returns is a
heap address (the final address of the chain, not a cell).  When `v = i`
the code instead returns `XAddr i` itself. -/
theorem deref_xaddr_follows_heap (env : Env) (i v : Nat)
    (hx : env.registers.x i = some (Cell.Ref v)) (hvi : v ≠ i) :
    deref env (Store.XAddr i) = deref env (Store.HeapAddr v) ∧
    (∀ r, deref env (Store.XAddr i) = some r → ∃ b, r = Store.HeapAddr b) := by
  have heq : deref env (Store.XAddr i) = derefH env (env.heap.length + 1) v := by
    simp [deref, hx, hvi]
  refine ⟨by rw [heq]; rfl, ?_⟩
  intro r hr
  rw [heq] at hr
  exact derefH_isHeapAddr env (env.heap.length + 1) v r hr

theorem deref_xaddr_follows_heap_witness :
    envDerefW.registers.x 0 = some (Cell.Ref 1) ∧
    deref envDerefW (Store.XAddr 0) = deref envDerefW (Store.HeapAddr 1) := by
  exact ⟨rfl, (deref_xaddr_follows_heap envDerefW 0 1 rfl (by decide)).1⟩

/-- C7: on a well-formed heap (Str targets are Func cells and Ref chains
are non-increasing, the discipline `bind` maintains), `deref` returns a
result — within the `heap.length + 1` fuel bound, i.e. in finitely many
steps — for every heap address and for every written register whose `Ref`
content stays inside the heap. -/
theorem deref_terminates (env : Env)
    (hwfR : WFrefs env.heap) (hwfS : WFstr env.heap) :
    (∀ a, a < env.heap.length → ∃ r, deref env (Store.HeapAddr a) = some r) ∧
    (∀ i c, env.registers.x i = some c →
      (∀ v, c = Cell.Ref v → v ≠ i → v < env.heap.length) →
      ∃ r, deref env (Store.XAddr i) = some r) := by
  have _hS := hwfS
  constructor
  · intro a ha
    exact derefH_total env hwfR (env.heap.length + 1) a ha (by omega)
  · intro i c hx hc
    cases c with
    | Ref v =>
      by_cases hv : v = i
      · exact ⟨Store.XAddr i, by simp [deref, hx, hv]⟩
      · obtain ⟨r, hr⟩ :=
          derefH_total env hwfR (env.heap.length + 1) v (hc v rfl hv) (by
            have := hc v rfl hv
            omega)
        exact ⟨r, by simp [deref, hx, hv, hr]⟩
    | Str s' => exact ⟨Store.XAddr i, by simp [deref, hx]⟩
    | Func g => exact ⟨Store.XAddr i, by simp [deref, hx]⟩

theorem bind_some_cells (env : Env) (a1 a2 : Store) (c1 c2 : Cell) (v1 v2 : Nat)
    (h1 : getStoreCell env a1 = some c1) (h2 : getStoreCell env a2 = some c2)
    (ha1 : c1.address = some v1) (ha2 : c2.address = some v2) :
    bind env a1 a2 =
      if c1.isRef && (!c2.isRef || v2 < v1) then
        if v1 < env.heap.length then
          some { env with heap := env.heap.set v1 c2 } else none
      else
        if v2 < env.heap.length then
          some { env with heap := env.heap.set v2 c1 } else none := by
  unfold bind
  rw [h1, h2]
  simp only [ha1, ha2]

theorem WFrefs_set (heap : List Cell) (t : Nat) (c : Cell)
    (hwf : WFrefs heap) (hc : ∀ w, c = Cell.Ref w → w ≤ t) :
    WFrefs (heap.set t c) := by
  intro a ha
  rw [List.length_set] at ha
  by_cases hat : t = a
  · subst hat
    rw [List.getElem?_set_eq_of_lt c ha]
    cases c with
    | Ref w => exact hc w rfl
    | Str s' => trivial
    | Func g => trivial
  · rw [List.getElem?_set_ne hat]
    exact hwf a ha

/-- C4 (counterexample): the store addresses `HeapAddr 0` and `HeapAddr 1`
of `envBindFunc` dereference to the distinct cells `Ref 0` and
`Func k/0`, one of which is a `Ref` — yet `bind` does not overwrite the
`Ref` cell with a copy of the `Func` cell: it aborts (`Cell::address`
returns `None` for a `Func`, and the Rust `unwrap` panics). -/
theorem bind_func_companion_panics :
    deref envBindFunc (Store.HeapAddr 0) = some (Store.HeapAddr 0) ∧
    deref envBindFunc (Store.HeapAddr 1) = some (Store.HeapAddr 1) ∧
    getStoreCell envBindFunc (Store.HeapAddr 0) = some (Cell.Ref 0) ∧
    getStoreCell envBindFunc (Store.HeapAddr 1) = some (Cell.Func ⟨"k", 0⟩) ∧
    (Cell.Ref 0).isRef = true ∧
    Cell.Ref 0 ≠ Cell.Func ⟨"k", 0⟩ ∧
    bind envBindFunc (Store.HeapAddr 0) (Store.HeapAddr 1) = none := by
  exact ⟨rfl, rfl, rfl, rfl, rfl, by decide, rfl⟩

/-- C4 (amended): for store addresses dereferencing to distinct cells, at
least one of them a `Ref` and both of them address-bearing (`Ref` or
`Str`, a `Func` companion aborts instead), `bind` overwrites the heap slot
named by the `Ref` cell — the higher-addressed one when both are `Ref`s —
with a copy of the other cell, and this write preserves the invariant
that every `Ref` chain is non-increasing in address (so chains still
strictly decrease until a self-loop or a non-`Ref` cell). -/
theorem bind_overwrites_higher_ref (env : Env) (s1 s2 d1 d2 : Store)
    (c1 c2 : Cell) (v1 v2 : Nat)
    (hd1 : deref env s1 = some d1) (hd2 : deref env s2 = some d2)
    (hc1 : getStoreCell env d1 = some c1) (hc2 : getStoreCell env d2 = some c2)
    (hne : c1 ≠ c2)
    (ha1 : c1.address = some v1) (ha2 : c2.address = some v2)
    (href : c1.isRef = true ∨ c2.isRef = true)
    (hb1 : v1 < env.heap.length) (hb2 : v2 < env.heap.length) :
    (c1.isRef = true ∧ c2.isRef = true →
        bind env d1 d2 =
          some { env with heap := env.heap.set (max v1 v2) (Cell.Ref (min v1 v2)) }) ∧
    (c1.isRef = true ∧ c2.isRef = false →
        bind env d1 d2 = some { env with heap := env.heap.set v1 c2 }) ∧
    (c1.isRef = false ∧ c2.isRef = true →
        bind env d1 d2 = some { env with heap := env.heap.set v2 c1 }) ∧
    (∀ env', bind env d1 d2 = some env' → WFrefs env.heap → WFrefs env'.heap) := by
  have _hds := And.intro hd1 hd2
  have _href := href
  have hbind := bind_some_cells env d1 d2 c1 c2 v1 v2 hc1 hc2 ha1 ha2
  refine ⟨?_, ?_, ?_, ?_⟩
  · rintro ⟨h1, h2⟩
    have hcc1 : c1 = Cell.Ref v1 := by
      cases c1 with
      | Ref w => simp [Cell.address] at ha1; rw [ha1]
      | Str w => simp [Cell.isRef] at h1
      | Func g => simp [Cell.address] at ha1
    have hcc2 : c2 = Cell.Ref v2 := by
      cases c2 with
      | Ref w => simp [Cell.address] at ha2; rw [ha2]
      | Str w => simp [Cell.isRef] at h2
      | Func g => simp [Cell.address] at ha2
    have hv12 : v1 ≠ v2 := by
      intro h
      exact hne (by rw [hcc1, hcc2, h])
    by_cases hlt : v2 < v1
    · have hmax : max v1 v2 = v1 := by omega
      have hmin : min v1 v2 = v2 := by omega
      rw [hbind, hmax, hmin, ← hcc2]
      simp [h1, h2, hlt, hb1]
    · have hmax : max v1 v2 = v2 := by omega
      have hmin : min v1 v2 = v1 := by omega
      rw [hbind, hmax, hmin, ← hcc1]
      simp [h1, h2, hlt, hb2]
  · rintro ⟨h1, h2⟩
    rw [hbind]
    simp [h1, h2, hb1]
  · rintro ⟨h1, h2⟩
    rw [hbind]
    simp [h1, h2, hb2]
  · intro env' hb hwf
    rw [hbind] at hb
    by_cases hcond : (c1.isRef && (!c2.isRef || v2 < v1)) = true
    · rw [if_pos hcond, if_pos hb1] at hb
      have henv : env' = { env with heap := env.heap.set v1 c2 } :=
        (Option.some_injective _ hb).symm
      rw [henv]
      apply WFrefs_set env.heap v1 c2 hwf
      intro w hw
      rw [Bool.and_eq_true, Bool.or_eq_true] at hcond
      rcases hcond.2 with hnr | hvlt
      · rw [hw] at hnr
        simp [Cell.isRef] at hnr
      · have hwv2 : w = v2 := by
          rw [hw] at ha2
          exact Option.some_injective _ ha2
        rw [hwv2]
        exact le_of_lt (of_decide_eq_true hvlt)
    · rw [if_neg hcond, if_pos hb2] at hb
      have henv : env' = { env with heap := env.heap.set v2 c1 } :=
        (Option.some_injective _ hb).symm
      rw [henv]
      apply WFrefs_set env.heap v2 c1 hwf
      intro w hw
      have h1r : c1.isRef = true := by rw [hw]; rfl
      have hwv1 : w = v1 := by
        rw [hw] at ha1
        exact Option.some_injective _ ha1
      rw [h1r, Bool.true_and] at hcond
      rw [Bool.or_eq_true] at hcond
      push_neg at hcond
      obtain ⟨_, hnlt⟩ := hcond
      have : ¬ v2 < v1 := fun hl => hnlt (decide_eq_true hl)
      omega

theorem deref_xaddr_result (env : Env) (i j : Nat)
    (h : deref env (Store.XAddr i) = some (Store.XAddr j)) : j = i := by
  cases hx : env.registers.x i with
  | none =>
    have hd : deref env (Store.XAddr i) = none := by simp [deref, hx]
    rw [hd] at h
    exact absurd h (by simp)
  | some c =>
    cases c with
    | Ref v =>
      by_cases hv : v = i
      · have hd : deref env (Store.XAddr i) = some (Store.XAddr i) := by
          simp [deref, hx, hv]
        rw [hd] at h
        have := Option.some_injective _ h
        cases this
        rfl
      · have hd : deref env (Store.XAddr i) = derefH env (env.heap.length + 1) v := by
          simp [deref, hx, hv]
        rw [hd] at h
        obtain ⟨b, hb⟩ := derefH_isHeapAddr env (env.heap.length + 1) v _ h
        exact absurd hb (by simp)
    | Str s' =>
      have hd : deref env (Store.XAddr i) = some (Store.XAddr i) := by simp [deref, hx]
      rw [hd] at h
      have := Option.some_injective _ h
      cases this
      rfl
    | Func g =>
      have hd : deref env (Store.XAddr i) = some (Store.XAddr i) := by simp [deref, hx]
      rw [hd] at h
      have := Option.some_injective _ h
      cases this
      rfl

theorem get_structure_cell_ref (f : Functor) (env : Env) (r a0 : Nat)
    (hH : env.registers.h = env.heap.length)
    (ha0 : env.heap[a0]? = some (Cell.Ref a0)) :
    ∃ env', get_structure_cell f env (Cell.Ref r) a0 = some env' ∧
      env'.heap.length = env.heap.length + 2 ∧
      env'.heap[env.registers.h]? = some (Cell.Str (env.registers.h + 1)) ∧
      env'.heap[env.registers.h + 1]? = some (Cell.Func f) ∧
      env'.heap[a0]? = some (Cell.Str (env.registers.h + 1)) ∧
      env'.registers.h = env.registers.h + 2 ∧
      env'.mode = Mode.Write ∧
      env'.fail = env.fail := by
  have ha0len : a0 < env.heap.length := by
    by_contra hcon
    rw [List.getElem?_eq_none (by omega)] at ha0
    exact absurd ha0 (by simp)
  have e1 : ((env.heap ++ [Cell.Str (env.registers.h + 1)]) ++ [Cell.Func f])[a0]? =
      some (Cell.Ref a0) := by
    rw [List.getElem?_append_left (by simp; omega), List.getElem?_append_left ha0len]
    exact ha0
  have e2 : ((env.heap ++ [Cell.Str (env.registers.h + 1)]) ++ [Cell.Func f])[env.registers.h]? =
      some (Cell.Str (env.registers.h + 1)) := by
    rw [hH, List.getElem?_append_left (by simp), List.getElem?_append_right (by omega)]
    simp
  have e3 : ((env.heap ++ [Cell.Str (env.registers.h + 1)]) ++
      [Cell.Func f])[env.registers.h + 1]? = some (Cell.Func f) := by
    rw [hH, List.getElem?_append_right (by simp)]
    simp
  have e1' : getStoreCell (pushHeap (pushHeap env (Cell.Str (env.registers.h + 1)))
      (Cell.Func f)) (Store.HeapAddr a0) = some (Cell.Ref a0) := e1
  have e2' : getStoreCell (pushHeap (pushHeap env (Cell.Str (env.registers.h + 1)))
      (Cell.Func f)) (Store.HeapAddr env.registers.h) =
      some (Cell.Str (env.registers.h + 1)) := e2
  have hb : bind (pushHeap (pushHeap env (Cell.Str (env.registers.h + 1))) (Cell.Func f))
      (Store.HeapAddr a0) (Store.HeapAddr env.registers.h) =
      some { heap := ((env.heap ++ [Cell.Str (env.registers.h + 1)]) ++ [Cell.Func f]).set a0
               (Cell.Str (env.registers.h + 1))
             pdl := env.pdl
             registers := env.registers
             mode := env.mode
             fail := env.fail } := by
    rw [bind_some_cells (pushHeap (pushHeap env (Cell.Str (env.registers.h + 1))) (Cell.Func f))
      (Store.HeapAddr a0) (Store.HeapAddr env.registers.h)
      (Cell.Ref a0) (Cell.Str (env.registers.h + 1)) a0 (env.registers.h + 1)
      e1' e2' rfl rfl]
    rw [if_pos (show ((Cell.Ref a0).isRef &&
        (!(Cell.Str (env.registers.h + 1)).isRef ||
          decide (env.registers.h + 1 < a0))) = true from rfl)]
    rw [if_pos (show a0 <
      (pushHeap (pushHeap env (Cell.Str (env.registers.h + 1))) (Cell.Func f)).heap.length by
        simp [pushHeap]; omega)]
    rfl
  refine ⟨{ heap := ((env.heap ++ [Cell.Str (env.registers.h + 1)]) ++ [Cell.Func f]).set a0
              (Cell.Str (env.registers.h + 1))
            pdl := env.pdl
            registers := { env.registers with h := env.registers.h + 2 }
            mode := Mode.Write
            fail := env.fail }, ?_, ?_, ?_, ?_, ?_, ?_, ?_, ?_⟩
  · show (match bind (pushHeap (pushHeap env (Cell.Str (env.registers.h + 1))) (Cell.Func f))
        (Store.HeapAddr a0) (Store.HeapAddr env.registers.h) with
      | none => none
      | some env2 => some (setMode (incH env2 2) Mode.Write)) = _
    rw [hb]
    rfl
  · simp [List.length_set]
  · show (((env.heap ++ [Cell.Str (env.registers.h + 1)]) ++ [Cell.Func f]).set a0
      (Cell.Str (env.registers.h + 1)))[env.registers.h]? = _
    rw [List.getElem?_set_ne (by omega)]
    exact e2
  · show (((env.heap ++ [Cell.Str (env.registers.h + 1)]) ++ [Cell.Func f]).set a0
      (Cell.Str (env.registers.h + 1)))[env.registers.h + 1]? = _
    rw [List.getElem?_set_ne (by omega)]
    exact e3
  · exact List.getElem?_set_eq_of_lt _ (by simp; omega)
  · rfl
  · rfl
  · rfl

theorem get_structure_eq_cell_heap (f : Functor) (xi : Nat) (env : Env) (a0 : Nat) (c : Cell)
    (hd : deref env (Store.XAddr xi) = some (Store.HeapAddr a0))
    (hc : env.heap[a0]? = some c) :
    get_structure f xi env = get_structure_cell f env c a0 := by
  unfold get_structure
  rw [hd]
  show (match env.heap[a0]? with
    | none => none
    | some cell => get_structure_cell f env cell a0) = _
  rw [hc]

theorem get_structure_eq_cell_x (f : Functor) (xi : Nat) (env : Env) (j : Nat) (c : Cell)
    (hd : deref env (Store.XAddr xi) = some (Store.XAddr j))
    (hc : env.registers.x xi = some c) :
    get_structure f xi env = get_structure_cell f env c j := by
  unfold get_structure
  rw [hd]
  show (match env.registers.x xi with
    | none => none
    | some cell => get_structure_cell f env cell j) = _
  rw [hc]

/-- C5 (counterexample): in `envGsBad`, `X1` dereferences to the cell
`Str 0` whose target heap cell is `Ref 0` — not a `Func`.  The claim says
every case other than a matching `Ref`/`Str` sets the Fail flag, but
`get_structure` aborts (the Rust `panic!()`) instead of producing any
state. -/
theorem get_structure_str_nonfunc_panics :
    deref envGsBad (Store.XAddr 1) = some (Store.XAddr 1) ∧
    getStoreCell envGsBad (Store.XAddr 1) = some (Cell.Str 0) ∧
    envGsBad.heap[0]? = some (Cell.Ref 0) ∧
    get_structure ⟨"g", 0⟩ 1 envGsBad = none ∧
    get_structure ⟨"g", 0⟩ 1 envGsBad ≠ some (setFail envGsBad true) := by
  refine ⟨rfl, rfl, rfl, rfl, ?_⟩
  intro h
  have h0 : get_structure ⟨"g", 0⟩ 1 envGsBad = none := rfl
  rw [h0] at h
  exact Option.noConfusion h

/-- C5 (amended): `get_structure f/n, Xi` first dereferences `Xi`, with
`H` equal to the heap size.  If the dereferenced cell is a `Ref`
(necessarily self-referential: the heap cell at the dereferenced numeric
address mirrors it), the instruction places `Str(H+1)` at `H` and
`Func(f,n)` at `H+1`, binds the dereferenced address to the new structure
(its cell becomes `Str(H+1)`), advances `H` by 2 and sets Mode to Write.
If the dereferenced cell is `Str(a)` and heap cell `a` is `Func(f,n)`, it
sets `S` to `a+1` and Mode to Read; if heap cell `a` is a different
`Func`, or the dereferenced cell is a bare `Func`, it sets the Fail flag.
(If heap cell `a` is not a `Func` at all, the machine aborts instead of
setting Fail.) -/
theorem get_structure_spec (f : Functor) (xi : Nat) (env : Env)
    (hH : env.registers.h = env.heap.length) :
    (∀ d r, deref env (Store.XAddr xi) = some d →
        getStoreCell env d = some (Cell.Ref r) →
        env.heap[d.address]? = some (Cell.Ref d.address) →
        ∃ env', get_structure f xi env = some env' ∧
          env'.heap.length = env.heap.length + 2 ∧
          env'.heap[env.registers.h]? = some (Cell.Str (env.registers.h + 1)) ∧
          env'.heap[env.registers.h + 1]? = some (Cell.Func f) ∧
          env'.heap[d.address]? = some (Cell.Str (env.registers.h + 1)) ∧
          env'.registers.h = env.registers.h + 2 ∧
          env'.mode = Mode.Write ∧
          env'.fail = env.fail) ∧
    (∀ d a g, deref env (Store.XAddr xi) = some d →
        getStoreCell env d = some (Cell.Str a) →
        env.heap[a]? = some (Cell.Func g) →
        get_structure f xi env =
          if g = f then some (setMode (setS env (a + 1)) Mode.Read)
          else some (setFail env true)) ∧
    (∀ d g, deref env (Store.XAddr xi) = some d →
        getStoreCell env d = some (Cell.Func g) →
        get_structure f xi env = some (setFail env true)) := by
  refine ⟨?_, ?_, ?_⟩
  · intro d r hd hc hheap
    cases d with
    | HeapAddr a0 =>
      have hred := get_structure_eq_cell_heap f xi env a0 (Cell.Ref r) hd hc
      have hha : env.heap[a0]? = some (Cell.Ref a0) := hheap
      obtain ⟨env', heq, hfacts⟩ := get_structure_cell_ref f env r a0 hH hha
      exact ⟨env', hred.trans heq, hfacts⟩
    | XAddr j =>
      have hj : j = xi := deref_xaddr_result env xi j hd
      subst hj
      have hred := get_structure_eq_cell_x f j env j (Cell.Ref r) hd hc
      have hha : env.heap[j]? = some (Cell.Ref j) := hheap
      obtain ⟨env', heq, hfacts⟩ := get_structure_cell_ref f env r j hH hha
      exact ⟨env', hred.trans heq, hfacts⟩
  · intro d a g hd hc hg
    have hcell : get_structure_cell f env (Cell.Str a) d.address =
        if g = f then some (setMode (setS env (a + 1)) Mode.Read)
        else some (setFail env true) := by
      simp only [get_structure_cell, hg]
    cases d with
    | HeapAddr a0 =>
      exact (get_structure_eq_cell_heap f xi env a0 (Cell.Str a) hd hc).trans hcell
    | XAddr j =>
      have hj : j = xi := deref_xaddr_result env xi j hd
      subst hj
      exact (get_structure_eq_cell_x f j env j (Cell.Str a) hd hc).trans hcell
  · intro d g hd hc
    have hcell : get_structure_cell f env (Cell.Func g) d.address =
        some (setFail env true) := by
      simp only [get_structure_cell]
    cases d with
    | HeapAddr a0 =>
      exact (get_structure_eq_cell_heap f xi env a0 (Cell.Func g) hd hc).trans hcell
    | XAddr j =>
      have hj : j = xi := deref_xaddr_result env xi j hd
      subst hj
      exact (get_structure_eq_cell_x f j env j (Cell.Func g) hd hc).trans hcell

theorem get_structure_spec_witness :
    envGsW.registers.h = envGsW.heap.length ∧
    get_structure ⟨"q", 1⟩ 1 envGsW = some (setMode (setS envGsW 2) Mode.Read) := by
  refine ⟨rfl, ?_⟩
  have h := (get_structure_spec ⟨"q", 1⟩ 1 envGsW rfl).2.1
    (Store.XAddr 1) 1 ⟨"q", 1⟩ rfl rfl rfl
  simpa using h

theorem bind_overwrites_higher_ref_witness :
    deref envBindW (Store.HeapAddr 0) = some (Store.HeapAddr 0) ∧
    deref envBindW (Store.HeapAddr 1) = some (Store.HeapAddr 1) ∧
    bind envBindW (Store.HeapAddr 0) (Store.HeapAddr 1) =
      some { envBindW with heap := envBindW.heap.set (max 0 1) (Cell.Ref (min 0 1)) } := by
  refine ⟨rfl, rfl, ?_⟩
  exact (bind_overwrites_higher_ref envBindW (Store.HeapAddr 0) (Store.HeapAddr 1)
    (Store.HeapAddr 0) (Store.HeapAddr 1) (Cell.Ref 0) (Cell.Ref 1) 0 1
    rfl rfl rfl rfl (by decide) rfl rfl (Or.inl rfl) (by decide) (by decide)).1 ⟨rfl, rfl⟩

theorem bind_pres (env : Env) (a1 a2 : Store) (env' : Env)
    (h : bind env a1 a2 = some env') :
    env'.heap.length = env.heap.length ∧ env'.registers = env.registers := by
  unfold bind at h
  repeat' split at h
  all_goals first
    | exact Option.noConfusion h
    | (injection h with h'
       rw [← h']
       exact ⟨by simp, rfl⟩)

theorem pushArgPairs_pres (e : Env) (v1 v2 n : Nat) :
    (pushArgPairs e v1 v2 n).heap = e.heap ∧
    (pushArgPairs e v1 v2 n).registers = e.registers := by
  unfold pushArgPairs
  generalize List.range' 1 (n - 1) = l
  induction l generalizing e with
  | nil => exact ⟨rfl, rfl⟩
  | cons i is ih =>
    simp only [List.foldl_cons]
    exact ih (pushPdl (pushPdl e (Store.HeapAddr (v1 + i))) (Store.HeapAddr (v2 + i)))

theorem unifyLoop_pres : ∀ (fuel : Nat) (env env' : Env),
    unifyLoop fuel env = some env' →
    env'.heap.length = env.heap.length ∧ env'.registers = env.registers := by
  intro fuel
  induction fuel with
  | zero =>
    intro env env' h
    unfold unifyLoop at h
    split at h
    · injection h with h'
      rw [← h']
      exact ⟨rfl, rfl⟩
    · split at h
      · injection h with h'
        rw [← h']
        exact ⟨rfl, rfl⟩
      · exact Option.noConfusion h
      · exact Option.noConfusion h
      · rename_i heqf heqp
        simp at heqf
  | succ k ih =>
    intro env env' h
    unfold unifyLoop at h
    split at h
    · injection h with h'
      rw [← h']
      exact ⟨rfl, rfl⟩
    · split at h
      · injection h with h'
        rw [← h']
        exact ⟨rfl, rfl⟩
      · exact Option.noConfusion h
      · exact Option.noConfusion h
      · rename_i heqf heqp
        rename_i fuel' a1 a2 rest
        injection heqf with heqf'
        subst heqf'
        split at h
        case _ d1 d2 _ _ =>
          split at h
          · exact ih { env with pdl := rest } env' h
          · split at h
            case _ c1 c2 _ _ =>
              split at h
              · split at h
                case _ env2 heq =>
                  obtain ⟨hl, hr⟩ := ih env2 env' h
                  obtain ⟨hbl, hbr⟩ := bind_pres { env with pdl := rest } d1 d2 env2 heq
                  exact ⟨hl.trans hbl, hr.trans hbr⟩
                case _ => exact Option.noConfusion h
              · split at h
                case _ v1 v2 _ _ =>
                  split at h
                  case _ f1 f2 _ _ =>
                    split at h
                    · obtain ⟨hl, hr⟩ := ih _ env' h
                      obtain ⟨hpl, hpr⟩ :=
                        pushArgPairs_pres { env with pdl := rest } v1 v2 f1.arity
                      exact ⟨hl.trans (by rw [hpl]), hr.trans hpr⟩
                    · exact ih (setFail { env with pdl := rest } true) env' h
                  all_goals exact Option.noConfusion h
                all_goals exact Option.noConfusion h
            all_goals exact Option.noConfusion h
        all_goals exact Option.noConfusion h

theorem get_structure_cell_hlen (f : Functor) (env : Env) (cell : Cell) (address : Nat)
    (env' : Env) (hinv : env.registers.h = env.heap.length)
    (h : get_structure_cell f env cell address = some env') :
    env'.registers.h = env'.heap.length := by
  cases cell with
  | Ref r =>
    simp only [get_structure_cell] at h
    split at h
    case _ => exact Option.noConfusion h
    case _ env2 heq =>
      injection h with h'
      rw [← h']
      obtain ⟨hbl, hbr⟩ := bind_pres _ _ _ env2 heq
      show (setMode (incH env2 2) Mode.Write).registers.h =
        (setMode (incH env2 2) Mode.Write).heap.length
      simp only [setMode, incH, hbr, hbl, pushHeap, List.length_append, List.length_cons,
        List.length_nil, hinv]
  | Str a =>
    simp only [get_structure_cell] at h
    split at h
    case _ g heq =>
      split at h
      all_goals (injection h with h'; rw [← h']; exact hinv)
    all_goals exact Option.noConfusion h
  | Func g =>
    simp only [get_structure_cell] at h
    injection h with h'
    rw [← h']
    exact hinv

theorem execInstr_hlen (env : Env) (i : Instr) (env' : Env)
    (hinv : env.registers.h = env.heap.length)
    (h : execInstr env i = some env') :
    env'.registers.h = env'.heap.length := by
  cases i with
  | putStructure f xi =>
    simp only [execInstr] at h
    unfold put_structure at h
    split at h
    · exact Option.noConfusion h
    · injection h with h'
      rw [← h']
      simp only [incH, insertX, pushHeap, List.length_append, List.length_cons,
        List.length_nil, hinv]
  | setVariable xi =>
    simp only [execInstr] at h
    unfold set_variable at h
    split at h
    · exact Option.noConfusion h
    · injection h with h'
      rw [← h']
      simp only [incH, insertX, pushHeap, List.length_append, List.length_cons,
        List.length_nil, hinv]
  | setValue xi =>
    simp only [execInstr] at h
    unfold set_value at h
    split at h
    · exact Option.noConfusion h
    · injection h with h'
      rw [← h']
      simp only [incH, pushHeap, List.length_append, List.length_cons,
        List.length_nil, hinv]
  | getStructure f xi =>
    simp only [execInstr] at h
    unfold get_structure at h
    split at h
    · exact Option.noConfusion h
    · split at h
      · exact Option.noConfusion h
      · exact get_structure_cell_hlen f env _ _ env' hinv h
    · split at h
      · exact Option.noConfusion h
      · exact get_structure_cell_hlen f env _ _ env' hinv h
  | unifyVariable xi =>
    simp only [execInstr] at h
    unfold unify_variable at h
    split at h
    · split at h
      · exact Option.noConfusion h
      · injection h with h'
        rw [← h']
        exact hinv
    · split at h
      · exact Option.noConfusion h
      · injection h with h'
        rw [← h']
        simp only [incS, incH, insertX, pushHeap, List.length_append, List.length_cons,
          List.length_nil, hinv]
  | unifyValue xi =>
    simp only [execInstr] at h
    unfold unify_value at h
    split at h
    · split at h
      · exact Option.noConfusion h
      case _ env1 heq =>
        injection h with h'
        rw [← h']
        unfold unify at heq
        obtain ⟨hl, hr⟩ := unifyLoop_pres _ _ env1 heq
        show env1.registers.h = env1.heap.length
        rw [hl, hr]
        exact hinv
    · split at h
      · exact Option.noConfusion h
      · injection h with h'
        rw [← h']
        simp only [incS, incH, pushHeap, List.length_append, List.length_cons,
          List.length_nil, hinv]

theorem execInstrN_hlen (fuel : Nat) (env : Env) (i : Instr) (env' : Env)
    (hinv : env.registers.h = env.heap.length)
    (h : execInstrN fuel env i = some env') :
    env'.registers.h = env'.heap.length := by
  cases i with
  | unifyValue xi =>
    simp only [execInstrN] at h
    unfold unify_valueN at h
    split at h
    · split at h
      · exact Option.noConfusion h
      case _ env1 heq =>
        injection h with h'
        rw [← h']
        unfold unifyN at heq
        obtain ⟨hl, hr⟩ := unifyLoop_pres _ _ env1 heq
        show env1.registers.h = env1.heap.length
        rw [hl, hr]
        exact hinv
    · split at h
      · exact Option.noConfusion h
      · injection h with h'
        rw [← h']
        simp only [incS, incH, pushHeap, List.length_append, List.length_cons,
          List.length_nil, hinv]
  | putStructure f xi => exact execInstr_hlen env (Instr.putStructure f xi) env' hinv h
  | setVariable xi => exact execInstr_hlen env (Instr.setVariable xi) env' hinv h
  | setValue xi => exact execInstr_hlen env (Instr.setValue xi) env' hinv h
  | getStructure f xi => exact execInstr_hlen env (Instr.getStructure f xi) env' hinv h
  | unifyVariable xi => exact execInstr_hlen env (Instr.unifyVariable xi) env' hinv h

theorem runN_hlen : ∀ (fuel : Nat) (prog : List Instr) (env env' : Env),
    env.registers.h = env.heap.length → runN fuel env prog = some env' →
    env'.registers.h = env'.heap.length := by
  intro fuel prog
  induction prog with
  | nil =>
    intro env env' hinv h
    injection h with h'
    rw [← h']
    exact hinv
  | cons i is ih =>
    intro env env' hinv h
    unfold runN at h
    split at h
    · exact Option.noConfusion h
    case _ envm heq => exact ih envm env' (execInstrN_hlen fuel env i envm hinv heq) h

/-- Machine state after running `put_structure c/0 X1; get_structure d/0 X1;
unify_value X1` on a fresh machine (the last instruction runs the
unification loop). -/
def envC8w : Env :=
  { heap := [Cell.Str 1, Cell.Func ⟨"c", 0⟩]
    pdl := []
    registers := { h := 2, x := xmap [(1, Cell.Str 1)], s := 1, p := 0, cp := 0 }
    mode := Mode.Read
    fail := false }

/-- C8: starting from a fresh machine, after any sequence of
put/set/get/unify instructions the `H` register equals the number of cells
on the heap — `H` is always the smallest heap address not yet allocated.
The unification loop's iteration budget is universally quantified, so
every terminating execution of the source (which is `runN fuel` for every
sufficiently large `fuel`) is an instance. -/
theorem h_matches_heap_length (fuel : Nat) (prog : List Instr) (env' : Env)
    (hrun : runN fuel initEnv prog = some env') :
    env'.registers.h = env'.heap.length :=
  runN_hlen fuel prog initEnv env' rfl hrun

theorem h_matches_heap_length_witness :
    runN 8 initEnv (progFailReset ++ [Instr.unifyValue 1]) = some envC8w ∧
    envC8w.registers.h = envC8w.heap.length :=
  ⟨rfl, h_matches_heap_length 8 (progFailReset ++ [Instr.unifyValue 1]) envC8w rfl⟩

theorem deref_terminates_witness :
    WFrefs envWfHeap.heap ∧ WFstr envWfHeap.heap ∧
    (deref envWfHeap (Store.HeapAddr 1)).isSome = true := by
  refine ⟨by decide, by decide, ?_⟩
  obtain ⟨r, hr⟩ := (deref_terminates envWfHeap (by decide) (by decide)).1 1 (by decide)
  rw [hr]
  rfl

end Wam
